import Mathlib

/-!
Shallow embedding of the RustStoryReader interpreter (src/src/main.rs).

Modelling conventions:
* Rust `String` is modelled by Lean `String`; the source indexes by bytes
  (`&text[0..1]`, `&left[1..2]`) which coincides with the char-based
  `String.take`/`String.drop` used here on ASCII scripts.
* `HashMap` is modelled by an association list where insertion prepends and
  lookup returns the first (i.e. most recent) binding, which matches the
  overwrite semantics of `HashMap::insert` / `get_mut`.
* Rust panics are modelled with `Except String`; the fatal message text is kept
  close to the source but is never load-bearing.
* The external expression evaluator `tinyexpr::interp` is out of scope per the
  spec; it is a parameter `interp : String → Option Rat` (f64 results are
  modelled as rationals, `v.to_string()` as `toString`).
* Standard input is a list of raw lines as `read_line` would deliver them,
  i.e. including any trailing line terminator.  Reading at end of input
  returns the empty string, as `read_line` does at EOF.
* `char::is_alphabetic` is modelled by `Char.isAlpha` (they agree on ASCII).
* Outputs are the strings passed to `println!`; outputs emitted on an
  execution path that subsequently panics are not tracked.
-/

deriving instance DecidableEq for Except

namespace StoryReader

/-! ### String primitives

Executable models of the Rust `str` functions the interpreter uses.  They are
defined on `List Char` so that every theorem below can be settled by kernel
evaluation on concrete scripts. -/

/-- Rust `str::replace`: replace every non-overlapping occurrence of `pat`,
scanning left to right.  Structural recursion on a fuel that starts at the
length of the scanned list, so the base case `(0, _ :: _)` is unreachable;
fuel keeps the definition kernel-evaluable.  The interpreter never calls it
with an empty pattern; `pat = []` is mapped to the identity. -/
def replGo (pat rep : List Char) : Nat → List Char → List Char
  | _, [] => []
  | 0, s => s
  | fuel + 1, c :: rest =>
    if pat ≠ [] ∧ pat.isPrefixOf (c :: rest) then
      rep ++ replGo pat rep fuel ((c :: rest).drop pat.length)
    else c :: replGo pat rep fuel rest

/-- Rust `str::replace` on `String`. -/
def strReplace (s pat rep : String) : String :=
  String.mk (replGo pat.data rep.data s.data.length s.data)

/-- Rust `str::split` for a nonempty separator: the pieces between
non-overlapping occurrences of `sep`, scanning left to right; `acc` is the
current piece, reversed.  Fueled like `replGo`. -/
def splitGo (sep : List Char) : Nat → List Char → List Char → List (List Char)
  | _, [], acc => [acc.reverse]
  | 0, s, acc => [acc.reverse ++ s]
  | fuel + 1, c :: rest, acc =>
    if sep ≠ [] ∧ sep.isPrefixOf (c :: rest) then
      acc.reverse :: splitGo sep fuel ((c :: rest).drop sep.length) []
    else splitGo sep fuel rest (c :: acc)

/-- Rust `str::trim` (both ends; ASCII whitespace). -/
def strTrim (s : String) : String :=
  String.mk (((s.data.dropWhile Char.isWhitespace).reverse.dropWhile Char.isWhitespace).reverse)

/-- The first `n` chars of a string; on the ASCII scripts the interpreter
reads, this agrees with the byte slices `&text[0..n]` of the source. -/
def strTake (s : String) (n : Nat) : String :=
  String.mk (s.data.take n)

/-- All but the first `n` chars; agrees with `&text[n..]` on ASCII. -/
def strDrop (s : String) (n : Nat) : String :=
  String.mk (s.data.drop n)

/-- Rust `str::chars().any(p)`. -/
def strAny (s : String) (p : Char → Bool) : Bool :=
  s.data.any p

/-- String length in chars; agrees with `str::len` on ASCII, where it is used
only to model byte-slice bound checks. -/
def strLen (s : String) : Nat :=
  s.data.length

/-- The delimiter set of the nom parser in `parse_variables`:
`is_not(" \0+-<>=().!#:;^/\\@")`. -/
def isDelim (c : Char) : Bool :=
  [' ', '\x00', '+', '-', '<', '>', '=', '(', ')', '.', '!', '#', ':', ';', '^', '/', '\\', '@'].contains c

/-- The token scan of `parse_variables` (src/src/main.rs:206-224), in discovery
order: `many0(preceded(take_until("@"), preceded(tag("@"), is_not(...))))`.
`take_until` fails when no `@` remains and `is_not` fails on an empty match, in
which case `many0` stops, dropping any tokens further right.  Fueled like
`replGo`; the scan consumes at least one char per step. -/
def scanGo : Nat → List Char → List (List Char)
  | _, [] => []
  | 0, _ => []
  | fuel + 1, c :: rest =>
    if c = '@' then
      let tok := rest.takeWhile (fun d => !isDelim d)
      if tok = [] then []
      else tok :: scanGo fuel (rest.dropWhile (fun d => !isDelim d))
    else scanGo fuel rest

/-- The token scan started with full fuel. -/
def scanTokens (cs : List Char) : List (List Char) :=
  scanGo cs.length cs

/-- The discovery-order token list (scan order, left to right). -/
def discoveryTokens (line : String) : List String :=
  (scanTokens line.data).map (fun t => String.mk t)

/-- `parse_variables` (src/src/main.rs:206-224): the scan result is rebuilt by
`ret.insert(0, item)`, i.e. each token is pushed at the front. -/
def parse_variables (line : String) : List String :=
  (scanTokens line.data).foldl (fun ret item => String.mk item :: ret) []

/-- The panic message of `Renderer::process_variables`. -/
def missingVarMsg : String :=
  "Variable Missing. It must be created before the block using it."

/-- Association-list lookup modelling `HashMap::get`. -/
def alookup {α : Type} : List (String × α) → String → Option α
  | [], _ => none
  | (k, v) :: rest, key => if k = key then some v else alookup rest key

/-- The `for item in ... { s = s.replace(...) }` loop body of
`Renderer::process_variables` (src/src/main.rs:52-67). -/
def substList (vars : List (String × String)) : List String → String → Except String String
  | [], s => .ok s
  | item :: more, s =>
    if item = "" then substList vars more s
    else
      match alookup vars item with
      | none => .error missingVarMsg
      | some v => substList vars more (strReplace s ("@" ++ item) v)

/-- `Renderer::process_variables` (src/src/main.rs:52-67). -/
def process_variables (vars : List (String × String)) (text : String) : Except String String :=
  substList vars (parse_variables text) text

/-- Variable substitution as the spec's words describe it (section 4.4):
replacement follows discovery order in the scan.  Used only to compare with
the behaviour of `process_variables` above. -/
def process_variables_discovery (vars : List (String × String)) (text : String) :
    Except String String :=
  substList vars (discoveryTokens text) text

/-- Rust `str::split`: for a nonempty pattern, the pieces between occurrences;
an empty pattern yields an empty piece, every char, and an empty piece. -/
def rustSplit (s sep : String) : List String :=
  if sep = "" then ("" :: s.data.map (fun c => String.mk [c])) ++ [""]
  else (splitGo sep.data s.data.length s.data []).map String.mk

/-- `Renderer::tokenize` (src/src/main.rs:157-176): split on every occurrence
of `pat`, demanding exactly two parts. -/
def tokenize (idx : Nat) (line pat : String) : Except String (String × String) :=
  let arr := rustSplit line pat
  if arr.length ≠ 2 then
    .error ("The Token " ++ line ++ " contained " ++ toString arr.length ++
      " but should have only 2 at line " ++ toString idx ++ ". It should be seperated by " ++ pat)
  else .ok (arr.getD 0 "", arr.getD 1 "")

/-- `Renderer::iftokenize` (src/src/main.rs:178-203): split on every occurrence
of `pat`, demanding two or three parts; a missing third part defaults to "". -/
def iftokenize (idx : Nat) (line pat : String) :
    Except String (Nat × String × String × String) :=
  let arr := rustSplit line pat
  if arr.length < 2 ∨ arr.length > 3 then
    .error ("The Token " ++ line ++ " contained " ++ toString arr.length ++
      " but should have 2 or 3 parts at line " ++ toString idx ++ ". It should be seperated by " ++ pat)
  else .ok (arr.length, arr.getD 0 "", arr.getD 1 "", arr.getD 2 "")

/-- The first match of the regex `!=|==|<=|>=|<|>` (src/src/main.rs:137-143):
leftmost occurrence, two-character operators tried before one-character ones at
each position. -/
def findOp : List Char → Option String
  | [] => none
  | '!' :: '=' :: _ => some "!="
  | '=' :: '=' :: _ => some "=="
  | '<' :: '=' :: _ => some "<="
  | '>' :: '=' :: _ => some ">="
  | '<' :: _ => some "<"
  | '>' :: _ => some ">"
  | _ :: rest => findOp rest

/-- `Renderer::get_expression` (src/src/main.rs:136-155): first operator found
by the pattern scan (or "" when none), then split the whole text on it,
demanding exactly two parts. -/
def get_expression (idx : Nat) (text : String) :
    Except String (String × String × String) :=
  let mid := (findOp text.data).getD ""
  let arr := rustSplit text mid
  if arr.length ≠ 2 then
    .error ("Expressions must containa a left side, right side and a operator. Line " ++
      toString idx)
  else .ok (arr.getD 0 "", mid, arr.getD 1 "")

/-- The evaluation half of `Renderer::process_expression`
(src/src/main.rs:69-134): `isnan` is set when either side fails numeric
evaluation; `==`/`!=` then fall back to string comparison while the ordering
operators panic. -/
def compareOp (interp : String → Option Rat) (idx : Nat)
    (left mid right : String) : Except String Bool :=
  let isnan := (interp left).isNone || (interp right).isNone
  let lvalue := (interp left).getD 0
  let rvalue := (interp right).getD 0
  if mid = "==" then .ok (if isnan then decide (left = right) else decide (lvalue = rvalue))
  else if mid = "!=" then .ok (if isnan then decide (left ≠ right) else decide (lvalue ≠ rvalue))
  else if mid = "<=" then
    if isnan then .error ("strings cant be compared with <=, line " ++ toString idx)
    else .ok (decide (lvalue ≤ rvalue))
  else if mid = ">=" then
    if isnan then .error ("strings cant be compared with >=, line " ++ toString idx)
    else .ok (decide (rvalue ≤ lvalue))
  else if mid = "<" then
    if isnan then .error ("strings cant be compared with <, line " ++ toString idx)
    else .ok (decide (lvalue < rvalue))
  else if mid = ">" then
    if isnan then .error ("strings cant be compared with >, line " ++ toString idx)
    else .ok (decide (rvalue < lvalue))
  else .error ("No expression pattern found. line " ++ toString idx)

/-- `Renderer::process_expression` (src/src/main.rs:69-134). -/
def process_expression (interp : String → Option Rat) (idx : Nat) (text : String) :
    Except String Bool :=
  match get_expression idx text with
  | .error e => .error e
  | .ok (l, m, r) => compareOp interp idx l m r

/-! ### Pre-scan and engine state -/

/-- The `Renderer` fields (src/src/main.rs:8-14) together with the modelled
standard input. -/
structure EngineState where
  lines : List String
  vars : List (String × String)
  labels : List (String × Nat)
  index : Nat
  stdin : List String
deriving DecidableEq, Repr

/-- One line of the pre-scan pass of `Renderer::processfile`
(src/src/main.rs:26-50): record `:label` lines, insert `@name=value` lines
with initial value "0", silently skip `@` lines that do not split into
exactly two parts on `=`, ignore everything else. -/
def prescanStep (acc : List (String × String) × List (String × Nat))
    (it : Nat × String) : List (String × String) × List (String × Nat) :=
  if it.2 = "" then acc
  else if strTake it.2 1 = ":" then (acc.1, (strDrop it.2 1, it.1) :: acc.2)
  else if strTake it.2 1 = "@" then
    match tokenize 0 it.2 "=" with
    | .ok lr => ((strDrop lr.1 1, "0") :: acc.1, acc.2)
    | .error _ => acc
  else acc

/-- `Renderer::processfile` (src/src/main.rs:26-50) followed by handing the
stdin stream to the engine. -/
def processfile (ls : List String) (input : List String) : EngineState :=
  let acc := ls.enum.foldl prescanStep ([], [])
  { lines := ls, vars := acc.1, labels := acc.2, index := 0, stdin := input }

/-! ### The dispatch loop -/

/-- The observable result of one iteration of the `while` loop in `main`
(src/src/main.rs:239-491): either the next state plus the lines printed, a
panic, or blocking forever on exhausted input inside the menu loop. -/
inductive StepRes where
  | cont (s : EngineState) (out : List String)
  | fatal (msg : String)
  | blocked
deriving DecidableEq, Repr

/-- `usize::from_str`: an optional leading `+` followed by one or more ASCII
digits (machine overflow is not modelled; menu counts are small). -/
def parseUsize (s : String) : Option Nat :=
  let digits := fun cs : List Char =>
    if cs = [] then none
    else if cs.all Char.isDigit then
      some (cs.foldl (fun n c => n * 10 + (c.toNat - 48)) 0)
    else none
  match s.data with
  | '+' :: rest => digits rest
  | cs => digits cs

/-- Executing a selected conditional branch (src/src/main.rs:288-325): a `#`
branch is a goto, an `@` branch is a validated assignment, and anything else
is printed -- note the source never advances `story.index` on the print path,
so the returned state is unchanged there. -/
def execBranch (interp : String → Option Rat) (s : EngineState) (exp : String) : StepRes :=
  if exp = "" then .fatal "byte index 1 is out of bounds"
  else if strTake exp 1 = "#" then
    match alookup s.labels (strReplace exp "#" "") with
    | some v => .cont { s with index := v } []
    | none =>
      .fatal ("Goto " ++ strReplace exp "#" "" ++ " Missing. Found on line " ++ toString s.index)
  else if strTake exp 1 = "@" then
    match tokenize s.index exp "=" with
    | .error e => .fatal e
    | .ok (l, r) =>
      match alookup s.vars (strDrop l 1) with
      | none =>
        .fatal "A Variable must be initalized outside of a if statement before it can be used."
      | some _ =>
        match process_variables s.vars r with
        | .error e => .fatal e
        | .ok p =>
          match interp p with
          | some v =>
            .cont { s with vars := (strDrop l 1, toString v) :: s.vars, index := s.index + 1 } []
          | none =>
            .cont { s with vars := (strDrop l 1, p) :: s.vars, index := s.index + 1 } []
  else .cont s [exp]

/-- The `!` handler (src/src/main.rs:270-326). -/
def handleIf (interp : String → Option Rat) (s : EngineState) (text : String) : StepRes :=
  match iftokenize s.index text ":" with
  | .error e => .fatal e
  | .ok (count, left0, mid, right) =>
    match process_variables s.vars (strDrop left0 1) with
    | .error e => .fatal e
    | .ok left =>
      match process_expression interp s.index left with
      | .error e => .fatal e
      | .ok b =>
        if b then execBranch interp s (strTrim mid)
        else if count = 3 then execBranch interp s (strTrim right)
        else .cont { s with index := s.index + 1 } []

/-- The `@` handler (src/src/main.rs:328-353): an assignment when the line
splits into two parts on `=`, otherwise substituted literal text. -/
def handleAssign (interp : String → Option Rat) (s : EngineState) (text : String) : StepRes :=
  match tokenize s.index text "=" with
  | .ok (l, r) =>
    match process_variables s.vars r with
    | .error e => .fatal e
    | .ok p =>
      match alookup s.vars (strDrop l 1) with
      | none => .fatal "called Option unwrap on a None value"
      | some _ =>
        match interp p with
        | some v =>
          .cont { s with vars := (strDrop l 1, toString v) :: s.vars, index := s.index + 1 } []
        | none =>
          .cont { s with vars := (strDrop l 1, p) :: s.vars, index := s.index + 1 } []
  | .error _ =>
    match process_variables s.vars text with
    | .error e => .fatal e
    | .ok p => .cont { s with index := s.index + 1 } [p]

/-- The option-collection loop of the `?` handler (src/src/main.rs:356-368),
over the lines from the current position onward.  `q` counts the options
already consumed; returns the stripped targets, the printed prompts and how
many lines were consumed.  Indexing past the end of the script and slicing
`[0..1]` of an empty line both panic, exactly as
`&story.lines[story.index][0..1]` does. -/
def collectMenuAux (q : Nat) : List String → Except String (List String × List String × Nat)
  | [] => .error "index out of bounds: the len is the number of script lines"
  | text :: rest =>
    if text = "" then .error "byte index 1 is out of bounds"
    else if strTake text 1 = "?" then
      match tokenize 0 text ":" with
      | .error e => .error e
      | .ok (l, r) =>
        match collectMenuAux (q + 1) rest with
        | .error e => .error e
        | .ok (gotos, outs, c) =>
          .ok (strReplace r "#" "" :: gotos,
               (toString (q + 1) ++ ". " ++ strDrop l 1) :: outs, c + 1)
    else .ok ([], [], 0)

/-- The menu validation loop (src/src/main.rs:370-404): read lines until one
strips to a string with no alphabetic character that parses as an integer in
`[1, q]`; returns the choice, the remaining input and the guidance lines
printed.  Exhausted input makes the source loop forever (`read_line` keeps
returning an empty invalid line), modelled as `none`. -/
def menuLoop (q : Nat) : List String → Option (Nat × List String × List String)
  | [] => none
  | l :: rest =>
    let ret := strReplace l "\r\n" ""
    if strAny ret Char.isAlpha then
      (menuLoop q rest).map (fun r =>
        (r.1, r.2.1, ("You must enter a NUMBER between 1 and " ++ toString q) :: r.2.2))
    else
      match parseUsize ret with
      | none =>
        (menuLoop q rest).map (fun r =>
          (r.1, r.2.1, ("You must enter a number between 1 and " ++ toString q) ::
            ("You must enter a number between 1 and " ++ toString q) :: r.2.2))
      | some m =>
        if m < 1 || q < m then
          (menuLoop q rest).map (fun r =>
            (r.1, r.2.1, ("You must enter a number between 1 and " ++ toString q) :: r.2.2))
        else some (m, rest, [])

/-- The `?` handler (src/src/main.rs:355-417). -/
def handleMenu (s : EngineState) : StepRes :=
  match collectMenuAux 0 (s.lines.drop s.index) with
  | .error e => .fatal e
  | .ok (gotos, outs, c) =>
    match menuLoop gotos.length s.stdin with
    | none => .blocked
    | some (n, rest, louts) =>
      match alookup s.labels (gotos.getD (n - 1) "") with
      | some v => .cont { s with index := v, stdin := rest } (outs ++ louts)
      | none => .fatal ("Goto " ++ gotos.getD (n - 1) "" ++
          " Missing. Found on Question near line " ++ toString (s.index + c))

/-- The numeric-input loop of the `^i` handler (src/src/main.rs:432-456):
print the prompt, read a line, re-prompt while the line contains an
alphabetic character; returns the accepted raw line, the remaining input and
the lines printed.  At end of input `read_line` returns an empty line, which
contains no alphabetic character and is accepted. -/
def inputLoopI (prompt : String) : List String → String × List String × List String
  | [] => ("", [], [prompt])
  | l :: rest =>
    if strAny l Char.isAlpha then
      let r := inputLoopI prompt rest
      (r.1, r.2.1, prompt :: "You may only enter in a Number. Please try again." :: r.2.2)
    else (l, rest, [prompt])

/-- The `^` handler (src/src/main.rs:420-479): the target-variable slice
`&right[1..]` panics when the part after `:` is empty, before anything else;
the target variable must be declared; the mode char after `^` selects
validated (`i`) or free (`s`) input, any other mode is fatal, and the
accepted line with every CRLF sequence removed is stored verbatim -- the
evaluator is never consulted. -/
def handleInput (s : EngineState) (text : String) : StepRes :=
  match tokenize s.index text ":" with
  | .error e => .fatal e
  | .ok (left, right) =>
    if strLen right < 1 then .fatal "byte index 1 is out of bounds"
    else
      match alookup s.vars (strDrop right 1) with
      | none =>
        .fatal "A Variable must be initalized outside of a Input statement before it can be used."
      | some _ =>
        if strLen left < 2 then .fatal "byte index 2 is out of bounds"
        else if strTake (strDrop left 1) 1 = "i" then
          .cont { s with vars := (strDrop right 1, strReplace (inputLoopI ("\n" ++ strDrop left 2) s.stdin).1 "\r\n" "") :: s.vars,
                         index := s.index + 1,
                         stdin := (inputLoopI ("\n" ++ strDrop left 2) s.stdin).2.1 }
            (inputLoopI ("\n" ++ strDrop left 2) s.stdin).2.2
        else if strTake (strDrop left 1) 1 = "s" then
          .cont { s with vars := (strDrop right 1, strReplace (s.stdin.headD "") "\r\n" "") :: s.vars,
                         index := s.index + 1, stdin := s.stdin.tail } ["\n" ++ strDrop left 2]
        else .fatal ("Missing a i or s for input type at line " ++ toString s.index)

/-- One iteration of the dispatch loop of `main` (src/src/main.rs:239-491),
run only while `index < lines.length`. -/
def step (interp : String → Option Rat) (s : EngineState) : StepRes :=
  let text := s.lines.getD s.index ""
  if text = "" then .cont { s with index := s.index + 1 } []
  else
    let t1 := strTake text 1
    if t1 = "\n" ∨ t1 = "\r" ∨ t1 = ":" ∨ t1 = "*" then .cont { s with index := s.index + 1 } []
    else if t1 = "|" then .cont { s with index := s.index + 1 } [""]
    else if t1 = "#" then
      let label := strReplace text "#" ""
      match alookup s.labels label with
      | some v => .cont { s with index := v } []
      | none => .fatal ("Goto " ++ label ++ " Missing. line " ++ toString s.index)
    else if t1 = "!" then handleIf interp s text
    else if t1 = "@" then handleAssign interp s text
    else if t1 = "?" then handleMenu s
    else if t1 = "^" then handleInput s text
    else
      match process_variables s.vars text with
      | .error e => .fatal e
      | .ok p => .cont { s with index := s.index + 1 } [p]

/-- The result of running the dispatch loop with a fuel bound on the number
of iterations. -/
inductive RunRes where
  | halted (s : EngineState)
  | panicked (msg : String)
  | blocked
  | fuelOut (s : EngineState)
deriving DecidableEq, Repr

/-- The `while story.index < story.lines.len()` loop of `main`, truncated
after `fuel` iterations. -/
def run (interp : String → Option Rat) : Nat → EngineState → RunRes
  | 0, s => .fuelOut s
  | fuel + 1, s =>
    if s.index < s.lines.length then
      match step interp s with
      | .cont s2 _ => run interp fuel s2
      | .fatal m => .panicked m
      | .blocked => .blocked
    else .halted s

/-! ### Auxiliary definitions for the claims -/

/-- Invalid menu input: after CRLF removal the line has an alphabetic
character, does not parse as an integer, or is out of range. -/
def menuInvalid (q : Nat) (l : String) : Bool :=
  strAny (strReplace l "\r\n" "") Char.isAlpha ||
    match parseUsize (strReplace l "\r\n" "") with
    | none => true
    | some m => m < 1 || q < m

/-- The guidance lines the menu loop prints for one invalid input line (a
failed integer parse prints the message twice, once in the parse `Err` arm
and once in the range check, as the source does). -/
def menuGuidance (q : Nat) (l : String) : List String :=
  if strAny (strReplace l "\r\n" "") Char.isAlpha then
    ["You must enter a NUMBER between 1 and " ++ toString q]
  else
    match parseUsize (strReplace l "\r\n" "") with
    | none => ["You must enter a number between 1 and " ++ toString q,
               "You must enter a number between 1 and " ++ toString q]
    | some _ => ["You must enter a number between 1 and " ++ toString q]

/-- Bounded labels: every stored label points inside the script.  The
pre-scan only ever stores enumeration indices of existing lines, so this is
an invariant of every reachable engine state. -/
def labelsBounded (s : EngineState) : Prop :=
  ∀ k v, alookup s.labels k = some v → v < s.lines.length

/-- The evaluator used for the concrete conditional script of claim C1. -/
def c1Interp : String → Option Rat := fun t => if t = "1" then some 1 else none

/-- A one-line script whose conditional is true and whose then-branch is the
plain text `hello`. -/
def c1State : EngineState :=
  { lines := ["!1==1:hello"], vars := [], labels := [], index := 0, stdin := [] }

/-- A `^s` input request whose stdin line is LF-terminated, as on Unix. -/
def c5State : EngineState :=
  { lines := ["^sP:@v"], vars := [("v", "0")], labels := [], index := 0, stdin := ["3\n"] }

/-- A `^i` input request fed one alphabetic line and then a numeric one. -/
def c5WState : EngineState :=
  { lines := ["^iQ:@v"], vars := [("v", "0")], labels := [], index := 0,
    stdin := ["ab\r\n", "12\r\n"] }

/-- A two-option menu with CRLF-terminated input selecting option 2. -/
def c6State : EngineState :=
  { lines := ["?A:#left", "?B:#right", "x"], vars := [],
    labels := [("left", 2), ("right", 1)], index := 0, stdin := ["2\r\n"] }

/-! ### Lemmas about the token scan and substitution -/

theorem scanGo_eq_nil_of_no_at (fuel : Nat) :
    ∀ cs : List Char, (∀ c ∈ cs, c ≠ '@') → scanGo fuel cs = [] := by
  induction fuel with
  | zero => intro cs _; cases cs <;> simp [scanGo]
  | succ n ih =>
    intro cs h
    cases cs with
    | nil => simp [scanGo]
    | cons c rest =>
      have hc : c ≠ '@' := h c (by simp)
      simp only [scanGo, if_neg hc]
      exact ih rest (fun d hd => h d (by simp [hd]))

theorem scanGo_ne_nil (fuel : Nat) :
    ∀ (cs : List Char) (t : List Char), t ∈ scanGo fuel cs → t ≠ [] := by
  induction fuel with
  | zero => intro cs t ht; cases cs <;> simp [scanGo] at ht
  | succ n ih =>
    intro cs t ht
    cases cs with
    | nil => simp [scanGo] at ht
    | cons c rest =>
      simp only [scanGo] at ht
      by_cases hc : c = '@'
      · rw [if_pos hc] at ht
        by_cases htok : rest.takeWhile (fun d => !isDelim d) = []
        · simp [htok] at ht
        · rw [if_neg htok] at ht
          rcases List.mem_cons.mp ht with h1 | h2
          · rw [h1]; exact htok
          · exact ih _ t h2
      · rw [if_neg hc] at ht
        exact ih rest t ht

theorem foldl_cons_eq_reverse_map {α β : Type} (f : α → β) :
    ∀ (l : List α) (acc : List β),
      l.foldl (fun r i => f i :: r) acc = (l.map f).reverse ++ acc := by
  intro l
  induction l with
  | nil => intro acc; simp
  | cons a l ih =>
    intro acc
    simp only [List.foldl, List.map, List.reverse_cons, List.append_assoc]
    rw [ih]
    simp

theorem parse_variables_eq_reverse_discovery (line : String) :
    parse_variables line = (discoveryTokens line).reverse := by
  unfold parse_variables discoveryTokens
  rw [foldl_cons_eq_reverse_map]
  simp

theorem parse_variables_ne_empty (line : String) :
    ∀ t ∈ parse_variables line, t ≠ "" := by
  intro t ht
  rw [parse_variables_eq_reverse_discovery] at ht
  rw [List.mem_reverse] at ht
  unfold discoveryTokens at ht
  rcases List.mem_map.mp ht with ⟨u, hu, hmk⟩
  have hne : u ≠ [] := scanGo_ne_nil _ _ u hu
  intro hcon
  rw [← hmk] at hcon
  exact hne (congrArg String.data hcon)

theorem substList_error_of_missing (vars : List (String × String)) :
    ∀ (items : List String) (s tok : String), tok ∈ items → tok ≠ "" →
      alookup vars tok = none →
      substList vars items s = .error missingVarMsg := by
  intro items
  induction items with
  | nil => intro s tok h; simp at h
  | cons a more ih =>
    intro s tok hmem hne hmiss
    by_cases ha : a = ""
    · have htok : tok ∈ more := by
        rcases List.mem_cons.mp hmem with h1 | h2
        · exact absurd (h1.trans ha) hne
        · exact h2
      simp only [substList, if_pos ha]
      exact ih s tok htok hne hmiss
    · simp only [substList, if_neg ha]
      rcases h : alookup vars a with _ | v
      · rfl
      · rcases List.mem_cons.mp hmem with h1 | h2
        · rw [h1] at hmiss; rw [hmiss] at h; cases h
        · exact ih _ tok h2 hne hmiss

/-- Claim C9: variable substitution is the identity on any text containing no
`@` character (hence no `@` token): the scan finds nothing, so the
replacement loop leaves the text unchanged. -/
theorem c9_subst_identity (vars : List (String × String)) (text : String)
    (h : ∀ c ∈ text.data, c ≠ '@') :
    process_variables vars text = .ok text := by
  unfold process_variables parse_variables scanTokens
  rw [scanGo_eq_nil_of_no_at _ _ h]
  rfl

theorem c9_subst_identity_witness :
    (∀ c ∈ ("hello world" : String).data, c ≠ '@') ∧
      process_variables [("a", "1")] "hello world" = .ok "hello world" :=
  ⟨by decide, c9_subst_identity [("a", "1")] "hello world" (by decide)⟩

/-- Claim C7: an execution-time reference to a variable absent from the
Variable Store is fatal: whenever the scan of a text discovers a token that
is not in the store, `process_variables` panics instead of returning a
substituted text, so no output depending on that variable is produced. -/
theorem c7_undeclared_fatal (vars : List (String × String)) (text tok : String)
    (hmem : tok ∈ parse_variables text) (hmiss : alookup vars tok = none) :
    process_variables vars text = .error missingVarMsg :=
  substList_error_of_missing vars (parse_variables text) text tok hmem
    (parse_variables_ne_empty text tok hmem) hmiss

theorem c7_undeclared_fatal_witness :
    ("x" ∈ parse_variables "hi @x there") ∧
      alookup [("y", "0")] "x" = none ∧
      process_variables [("y", "0")] "hi @x there" = .error missingVarMsg :=
  ⟨by decide, by decide, c7_undeclared_fatal [("y", "0")] "hi @x there" "x" (by decide) (by decide)⟩

/-- Claim C2 (corrected): the replacement loop of `process_variables` walks
the token list built by `parse_variables`, which is the REVERSE of the
discovery order of the left-to-right scan, because the source pushes every
scanned token at index 0 of the result vector.  So the last-discovered
token's occurrences are replaced first. -/
theorem c2_reverse_discovery_order (vars : List (String × String)) (text : String) :
    process_variables vars text = substList vars (discoveryTokens text).reverse text := by
  unfold process_variables
  rw [parse_variables_eq_reverse_discovery]

/-- Claim C2 counterexample: on `"@ab @a"` with `ab ↦ Y` and `a ↦ X`, the
engine replaces the later-discovered token `a` first, mangling `@ab` into
`Xb`; discovery-order replacement (the claim) would give `"Y X"` instead. -/
theorem c2_discovery_order_counterexample :
    process_variables [("ab", "Y"), ("a", "X")] "@ab @a" = .ok "Xb X" ∧
      process_variables_discovery [("ab", "Y"), ("a", "X")] "@ab @a" = .ok "Y X" ∧
      process_variables [("ab", "Y"), ("a", "X")] "@ab @a" ≠
        process_variables_discovery [("ab", "Y"), ("a", "X")] "@ab @a" := by
  refine ⟨by decide, by decide, by decide⟩

/-- Claim C3 (amended): a pre-scan line beginning with `@` is split on EVERY
`=` (not the first); only when that split yields exactly two parts — i.e. the
line contains exactly one `=` — is the name inserted with initial value "0";
otherwise (no `=`, or two or more) the line is silently skipped with no error
reported. -/
theorem c3_prescan_amended (vs : List (String × String)) (ls : List (String × Nat))
    (index : Nat) (text : String) (h : strTake text 1 = "@") :
    ((rustSplit text "=").length = 2 →
      prescanStep (vs, ls) (index, text) =
        ((strDrop ((rustSplit text "=").getD 0 "") 1, "0") :: vs, ls)) ∧
    ((rustSplit text "=").length ≠ 2 → prescanStep (vs, ls) (index, text) = (vs, ls)) := by
  have hne : text ≠ "" := by
    intro hcon
    rw [hcon] at h
    exact absurd h (by decide)
  have hcolon : strTake text 1 ≠ ":" := by rw [h]; decide
  constructor
  · intro hlen
    simp only [prescanStep, if_neg hne, if_neg hcolon, if_pos h, tokenize, if_neg (by omega : ¬ (rustSplit text "=").length ≠ 2)]
  · intro hlen
    simp only [prescanStep, if_neg hne, if_neg hcolon, if_pos h, tokenize, if_pos hlen]

theorem c3_prescan_amended_witness :
    strTake "@a=b=c" 1 = "@" ∧ (rustSplit "@a=b=c" "=").length ≠ 2 ∧
      prescanStep ([], []) (0, "@a=b=c") = ([], []) ∧
      strTake "@a=b" 1 = "@" ∧ (rustSplit "@a=b" "=").length = 2 ∧
      prescanStep ([], []) (0, "@a=b") = ([("a", "0")], []) := by
  refine ⟨by decide, by decide, ?_, by decide, by decide, ?_⟩
  · exact (c3_prescan_amended [] [] 0 "@a=b=c" (by decide)).2 (by decide)
  · have := (c3_prescan_amended [] [] 0 "@a=b" (by decide)).1 (by decide)
    simpa using this

/-- Claim C3 counterexample: `@a=b=c` splits into three parts on `=`, so the
pre-scan silently skips it and `a` is NOT inserted with value "0" — the
claim's "split on the first `=`" would have inserted it. -/
theorem c3_counterexample :
    (processfile ["@a=b=c"] []).vars = [] ∧
      alookup (processfile ["@a=b=c"] []).vars "a" ≠ some "0" := by
  refine ⟨by decide, by decide⟩

/-! ### Claim C4: conditional comparison semantics -/

/-- Claim C4: in a conditional comparison, when both operands evaluate
numerically the operator is applied to the numbers; when either fails,
`==`/`!=` fall back to exact string equality of the operand texts and every
ordering operator is fatal. -/
theorem c4_compare_semantics (interp : String → Option Rat) (idx : Nat) (l r : String) :
    (∀ x y, interp l = some x → interp r = some y →
      compareOp interp idx l "==" r = .ok (decide (x = y)) ∧
      compareOp interp idx l "!=" r = .ok (decide (x ≠ y)) ∧
      compareOp interp idx l "<=" r = .ok (decide (x ≤ y)) ∧
      compareOp interp idx l ">=" r = .ok (decide (y ≤ x)) ∧
      compareOp interp idx l "<" r = .ok (decide (x < y)) ∧
      compareOp interp idx l ">" r = .ok (decide (y < x))) ∧
    (((interp l).isNone ∨ (interp r).isNone) →
      compareOp interp idx l "==" r = .ok (decide (l = r)) ∧
      compareOp interp idx l "!=" r = .ok (decide (l ≠ r)) ∧
      (∀ op, op ∈ (["<=", ">=", "<", ">"] : List String) →
        ∃ msg, compareOp interp idx l op r = .error msg)) := by
  constructor
  · intro x y hx hy
    refine ⟨?_, ?_, ?_, ?_, ?_, ?_⟩ <;>
      simp [compareOp, hx, hy]
  · intro hnan
    have hb : ((interp l).isNone || (interp r).isNone) = true := by
      rcases hnan with h | h <;> simp [h]
    refine ⟨by simp [compareOp, hb], by simp [compareOp, hb], ?_⟩
    intro op hop
    rcases List.mem_cons.mp hop with rfl | hop
    · exact ⟨"strings cant be compared with <=, line " ++ toString idx, by simp [compareOp, hb]⟩
    rcases List.mem_cons.mp hop with rfl | hop
    · exact ⟨"strings cant be compared with >=, line " ++ toString idx, by simp [compareOp, hb]⟩
    rcases List.mem_cons.mp hop with rfl | hop
    · exact ⟨"strings cant be compared with <, line " ++ toString idx, by simp [compareOp, hb]⟩
    rcases List.mem_cons.mp hop with rfl | hop
    · exact ⟨"strings cant be compared with >, line " ++ toString idx, by simp [compareOp, hb]⟩
    · simp at hop

theorem c4_compare_semantics_witness :
    ((fun t => if t = "5" then some (5 : Rat) else none) "abc").isNone = true ∧
      compareOp (fun t => if t = "5" then some (5 : Rat) else none) 0 "5" "==" "5" = .ok true ∧
      compareOp (fun t => if t = "5" then some (5 : Rat) else none) 0 "abc" "==" "abc" = .ok true ∧
      (∃ msg, compareOp (fun t => if t = "5" then some (5 : Rat) else none) 0 "5" "<" "abc" =
        .error msg) := by
  have h1 := (c4_compare_semantics (fun t => if t = "5" then some (5 : Rat) else none) 0 "5" "5").1
    5 5 (by decide) (by decide)
  have h2 := (c4_compare_semantics (fun t => if t = "5" then some (5 : Rat) else none) 0
    "abc" "abc").2 (by right; decide)
  have h3 := (c4_compare_semantics (fun t => if t = "5" then some (5 : Rat) else none) 0
    "5" "abc").2 (by right; decide)
  refine ⟨by decide, ?_, ?_, ?_⟩
  · have := h1.1
    simpa using this
  · have := h2.1
    simpa using this
  · exact h3.2.2 "<" (by decide)

/-! ### Claim C1: the conditional print branch never advances -/

/-- Claim C1 (code bug): on a conditional whose selected branch text starts
with neither `#` nor `@`, the engine prints the branch text but does NOT
advance the program counter: the `_ => println!` arm of the branch match
(src/src/main.rs:324) falls out of the handler without touching
`story.index`, so the very same state recurs and the loop never terminates —
the claim (and spec section 4.2) says the handler advances the PC by 1. -/
theorem c1_if_print_does_not_advance :
    step c1Interp c1State = .cont c1State ["hello"] ∧
      ∀ fuel, run c1Interp fuel c1State = .fuelOut c1State := by
  have hstep : step c1Interp c1State = .cont c1State ["hello"] := by decide
  refine ⟨hstep, ?_⟩
  intro fuel
  induction fuel with
  | zero => rfl
  | succ n ih =>
    rw [run]
    simp only [hstep]
    rw [if_pos (by decide : c1State.index < c1State.lines.length)]
    exact ih

/-! ### Claim C5: the `^` input request -/

theorem inputLoopI_accept_no_alpha (prompt : String) :
    ∀ stdin : List String, strAny (inputLoopI prompt stdin).1 Char.isAlpha = false := by
  intro st
  induction st with
  | nil => simp [inputLoopI, strAny]
  | cons l rest ih =>
    by_cases h : strAny l Char.isAlpha
    · simp [inputLoopI, h, ih]
    · simp only [inputLoopI, if_neg h]
      simpa using h

/-- Claim C5 (amended): mode `i` prints the prompt and loops, discarding
every line containing an alphabetic character, until one without is
received; mode `s` performs a single read with no validation; any other mode
character is fatal.  The accepted line is stored verbatim with no numeric
coercion, after removing every occurrence of the two-character sequence CRLF
— a line terminated by a bare LF (as on Unix) keeps that LF, so only a
CRLF-terminated line is actually stripped.  The hypotheses restrict to lines
whose part after `:` is non-empty: on an empty part the `&right[1..]` slice
panics before the mode is even inspected, as `handleInput` models. -/
theorem c5_input_modes (s : EngineState) (text left right w : String)
    (ht : tokenize s.index text ":" = .ok (left, right))
    (hr : 1 ≤ strLen right)
    (hv : alookup s.vars (strDrop right 1) = some w)
    (hlen : 2 ≤ strLen left) :
    (strTake (strDrop left 1) 1 = "i" →
      handleInput s text =
        .cont { s with vars := (strDrop right 1, strReplace (inputLoopI ("\n" ++ strDrop left 2) s.stdin).1 "\r\n" "") :: s.vars,
                       index := s.index + 1,
                       stdin := (inputLoopI ("\n" ++ strDrop left 2) s.stdin).2.1 }
          (inputLoopI ("\n" ++ strDrop left 2) s.stdin).2.2 ∧
      strAny (inputLoopI ("\n" ++ strDrop left 2) s.stdin).1 Char.isAlpha = false) ∧
    (∀ prompt l tail, strAny l Char.isAlpha = true →
      inputLoopI prompt (l :: tail) =
        ((inputLoopI prompt tail).1, (inputLoopI prompt tail).2.1,
          prompt :: "You may only enter in a Number. Please try again." ::
            (inputLoopI prompt tail).2.2)) ∧
    (strTake (strDrop left 1) 1 = "s" →
      handleInput s text =
        .cont { s with vars := (strDrop right 1, strReplace (s.stdin.headD "") "\r\n" "") :: s.vars,
                       index := s.index + 1, stdin := s.stdin.tail } ["\n" ++ strDrop left 2]) ∧
    (strTake (strDrop left 1) 1 ≠ "i" → strTake (strDrop left 1) 1 ≠ "s" →
      handleInput s text =
        .fatal ("Missing a i or s for input type at line " ++ toString s.index)) := by
  have hlen2 : ¬ strLen left < 2 := by omega
  have hr2 : ¬ strLen right < 1 := by omega
  refine ⟨?_, ?_, ?_, ?_⟩
  · intro hm
    refine ⟨?_, inputLoopI_accept_no_alpha _ _⟩
    simp [handleInput, ht, hr2, hv, hlen2, hm]
  · intro prompt l tail hl
    simp [inputLoopI, hl]
  · intro hm
    simp [handleInput, ht, hr2, hv, hlen2, hm]
  · intro h1 h2
    simp [handleInput, ht, hr2, hv, hlen2, h1, h2]

/-- Claim C5 counterexample: on a Unix-style LF-terminated input line `3`,
the `^s` handler stores `"3\n"` — the bare LF is NOT stripped, because the
source only removes the two-character sequence CRLF.  The claim's "trailing
carriage-return/newline stripped" value would be `"3"`. -/
theorem c5_lf_not_stripped :
    step (fun _ => none) c5State =
      .cont { lines := ["^sP:@v"], vars := [("v", "3\n"), ("v", "0")], labels := [],
              index := 1, stdin := [] } ["\nP"] ∧
      alookup [("v", "3\n"), ("v", "0")] "v" ≠ some "3" := by
  refine ⟨by decide, by decide⟩

theorem c5_input_modes_witness :
    tokenize 0 "^iQ:@v" ":" = .ok ("^iQ", "@v") ∧
      handleInput c5WState "^iQ:@v" =
        .cont { lines := ["^iQ:@v"], vars := [("v", "12"), ("v", "0")], labels := [], index := 1,
                stdin := [] }
          ["\nQ", "You may only enter in a Number. Please try again.", "\nQ"] := by
  have h := (c5_input_modes c5WState "^iQ:@v" "^iQ" "@v" "0"
    (by decide) (by decide) (by decide) (by decide)).1 (by decide)
  refine ⟨by decide, ?_⟩
  rw [h.1]
  decide

/-! ### Lemmas about the menu subsystem -/

theorem menuLoop_mem_range :
    ∀ (stdin : List String) (q n : Nat) (rest louts : List String),
      menuLoop q stdin = some (n, rest, louts) → 1 ≤ n ∧ n ≤ q := by
  intro st
  induction st with
  | nil => intro q n rest louts h; cases h
  | cons l tail ih =>
    intro q n rest louts h
    simp only [menuLoop] at h
    split at h
    · rcases Option.map_eq_some'.mp h with ⟨⟨n', rest', louts'⟩, hm, hf⟩
      simp only [Prod.mk.injEq] at hf
      obtain ⟨rfl, rfl, -⟩ := hf
      exact ih q n' rest' louts' hm
    · split at h
      · rcases Option.map_eq_some'.mp h with ⟨⟨n', rest', louts'⟩, hm, hf⟩
        simp only [Prod.mk.injEq] at hf
        obtain ⟨rfl, rfl, -⟩ := hf
        exact ih q n' rest' louts' hm
      · split at h
        · rcases Option.map_eq_some'.mp h with ⟨⟨n', rest', louts'⟩, hm, hf⟩
          simp only [Prod.mk.injEq] at hf
          obtain ⟨rfl, rfl, -⟩ := hf
          exact ih q n' rest' louts' hm
        · rename_i m _ hcond
          simp only [Option.some.injEq, Prod.mk.injEq] at h
          obtain ⟨rfl, rfl, rfl⟩ := h
          simp only [Bool.or_eq_true, decide_eq_true_eq, not_or] at hcond
          omega

theorem collectMenuAux_ordinals :
    ∀ (rem : List String) (q : Nat) (g o : List String) (c : Nat),
      collectMenuAux q rem = .ok (g, o, c) →
      ∀ i, i < o.length → ∃ p, o.getD i "" = toString (q + i + 1) ++ ". " ++ p := by
  intro rem
  induction rem with
  | nil => intro q g o c h; cases h
  | cons text rest ih =>
    intro q g o c h
    simp only [collectMenuAux] at h
    split at h
    · cases h
    · split at h
      · split at h
        · cases h
        · rename_i l r _
          split at h
          · cases h
          · rename_i g' o' c' hrec
            simp only [Except.ok.injEq, Prod.mk.injEq] at h
            obtain ⟨rfl, rfl, rfl⟩ := h
            intro i hi
            cases i with
            | zero => exact ⟨strDrop l 1, by simp⟩
            | succ j =>
              have hj : j < o'.length := by simpa using hi
              rcases ih (q + 1) g' o' c' hrec j hj with ⟨p, hp⟩
              refine ⟨p, ?_⟩
              have harith : q + (j + 1) + 1 = q + 1 + j + 1 := by omega
              simp only [List.getD_cons_succ]
              rw [harith]
              exact hp
      · simp only [Except.ok.injEq, Prod.mk.injEq] at h
        obtain ⟨rfl, rfl, rfl⟩ := h
        intro i hi
        simp at hi

theorem collectMenuAux_ok_bounds :
    ∀ (rem : List String) (q : Nat) (g o : List String) (c : Nat),
      collectMenuAux q rem = .ok (g, o, c) →
      c < rem.length ∧ rem.getD c "" ≠ "" ∧ strTake (rem.getD c "") 1 ≠ "?" := by
  intro rem
  induction rem with
  | nil => intro q g o c h; cases h
  | cons text rest ih =>
    intro q g o c h
    simp only [collectMenuAux] at h
    split at h
    · cases h
    · rename_i hne
      split at h
      · split at h
        · cases h
        · split at h
          · cases h
          · rename_i g' o' c' hrec
            simp only [Except.ok.injEq, Prod.mk.injEq] at h
            obtain ⟨rfl, rfl, rfl⟩ := h
            rcases ih (q + 1) g' o' c' hrec with ⟨h1, h2, h3⟩
            refine ⟨by simpa using h1, ?_, ?_⟩
            · simpa using h2
            · simpa using h3
      · rename_i hq
        simp only [Except.ok.injEq, Prod.mk.injEq] at h
        obtain ⟨rfl, rfl, rfl⟩ := h
        exact ⟨by simp, by simpa using hne, by simpa using hq⟩

theorem collectMenuAux_error_of_all_q :
    ∀ (rem : List String) (q : Nat), (∀ l ∈ rem, strTake l 1 = "?") →
      ∃ msg, collectMenuAux q rem = .error msg := by
  intro rem
  induction rem with
  | nil =>
    intro q _
    exact ⟨"index out of bounds: the len is the number of script lines", rfl⟩
  | cons text rest ih =>
    intro q h
    have htext : strTake text 1 = "?" := h text (by simp)
    have hne : text ≠ "" := by
      intro hcon; rw [hcon] at htext; exact absurd htext (by decide)
    rcases htok : tokenize 0 text ":" with e | ⟨l, r⟩
    · exact ⟨e, by simp [collectMenuAux, hne, htext, htok]⟩
    · rcases ih (q + 1) (fun x hx => h x (by simp [hx])) with ⟨msg, hmsg⟩
      exact ⟨msg, by simp [collectMenuAux, hne, htext, htok, hmsg]⟩

theorem collectMenuAux_error_of_empty_after :
    ∀ (pre post : List String) (q : Nat), (∀ l ∈ pre, strTake l 1 = "?") →
      ∃ msg, collectMenuAux q (pre ++ "" :: post) = .error msg := by
  intro pre
  induction pre with
  | nil =>
    intro post q _
    exact ⟨"byte index 1 is out of bounds", by simp [collectMenuAux]⟩
  | cons text rest ih =>
    intro post q h
    have htext : strTake text 1 = "?" := h text (by simp)
    have hne : text ≠ "" := by
      intro hcon; rw [hcon] at htext; exact absurd htext (by decide)
    rcases htok : tokenize 0 text ":" with e | ⟨l, r⟩
    · exact ⟨e, by simp [collectMenuAux, hne, htext, htok]⟩
    · rcases ih post (q + 1) (fun x hx => h x (by simp [hx])) with ⟨msg, hmsg⟩
      exact ⟨msg, by simp [collectMenuAux, hne, htext, htok, hmsg]⟩

theorem step_menu_eq (interp : String → Option Rat) (s : EngineState)
    (hline : strTake (s.lines.getD s.index "") 1 = "?") :
    step interp s = handleMenu s := by
  have hne : s.lines.getD s.index "" ≠ "" := by
    intro hcon; rw [hcon] at hline; exact absurd hline (by decide)
  have hline2 : strTake (s.lines[s.index]?.getD "") 1 = "?" := by simpa using hline
  have hne2 : s.lines[s.index]?.getD "" ≠ "" := by simpa using hne
  simp [step, hne2, hline2]

/-! ### Claim C6: the menu block -/

/-- Claim C6: each menu prompt is printed with its 1-based ordinal; the input
loop only ever accepts an integer `n` in `[1, count]` (everything else is
answered with a guidance line and retried, the program counter untouched);
on acceptance the engine jumps to the label stored for option `n`, and
panics if that label is not in the Label Table. -/
theorem c6_menu_spec (interp : String → Option Rat) (s : EngineState)
    (gotos outs : List String) (c n : Nat) (rest louts : List String)
    (hline : strTake (s.lines.getD s.index "") 1 = "?")
    (hc : collectMenuAux 0 (s.lines.drop s.index) = .ok (gotos, outs, c))
    (hm : menuLoop gotos.length s.stdin = some (n, rest, louts)) :
    (1 ≤ n ∧ n ≤ gotos.length) ∧
    (∀ i, i < outs.length → ∃ p, outs.getD i "" = toString (i + 1) ++ ". " ++ p) ∧
    (∀ v, alookup s.labels (gotos.getD (n - 1) "") = some v →
      step interp s = .cont { s with index := v, stdin := rest } (outs ++ louts)) ∧
    (alookup s.labels (gotos.getD (n - 1) "") = none →
      step interp s = .fatal ("Goto " ++ gotos.getD (n - 1) "" ++
        " Missing. Found on Question near line " ++ toString (s.index + c))) ∧
    (∀ q l tail, menuInvalid q l = true →
      menuLoop q (l :: tail) = (menuLoop q tail).map
        (fun r => (r.1, r.2.1, menuGuidance q l ++ r.2.2))) := by
  refine ⟨menuLoop_mem_range s.stdin gotos.length n rest louts hm, ?_, ?_, ?_, ?_⟩
  · intro i hi
    rcases collectMenuAux_ordinals (s.lines.drop s.index) 0 gotos outs c hc i hi with ⟨p, hp⟩
    refine ⟨p, ?_⟩
    rw [hp]
    have : 0 + i + 1 = i + 1 := by omega
    rw [this]
  · intro v hv
    rw [step_menu_eq interp s hline]
    have hv2 : alookup s.labels (gotos[n - 1]?.getD "") = some v := by simpa using hv
    simp [handleMenu, hc, hm, hv2]
  · intro hv
    rw [step_menu_eq interp s hline]
    have hv2 : alookup s.labels (gotos[n - 1]?.getD "") = none := by simpa using hv
    simp [handleMenu, hc, hm, hv2]
  · intro q l tail hinv
    simp only [menuInvalid, Bool.or_eq_true] at hinv
    by_cases ha : strAny (strReplace l "\r\n" "") Char.isAlpha
    · simp [menuLoop, menuGuidance, ha]
    · rcases hp : parseUsize (strReplace l "\r\n" "") with _ | m
      · simp [menuLoop, menuGuidance, ha, hp]
      · have hrange : (decide (m < 1) || decide (q < m)) = true := by
          rcases hinv with h | h
          · exact absurd h (by simp [ha])
          · rw [hp] at h; simpa using h
        simp only [menuLoop, menuGuidance, if_neg ha, hp]
        rw [if_pos (by simpa using hrange)]
        simp [ha]

theorem c6_menu_spec_witness :
    (1 ≤ 2 ∧ 2 ≤ 2) ∧
      step (fun _ => none) c6State =
        .cont { lines := ["?A:#left", "?B:#right", "x"], vars := [],
                labels := [("left", 2), ("right", 1)], index := 1, stdin := [] }
          ["1. A", "2. B"] := by
  have h := c6_menu_spec (fun _ => none) c6State ["left", "right"] ["1. A", "2. B"] 2 2 [] []
    (by decide) (by decide) (by decide)
  refine ⟨h.1, ?_⟩
  have h3 := h.2.2.1 1 (by decide)
  rw [h3]
  decide

/-! ### Claim C10: menu option collection at the script boundary -/

/-- Claim C10: if the contiguous `?` run reaches the last line of the script
the option-collection loop indexes past the end and panics; if the line
right after the run is empty the `[0..1]` slice panics; either way the panic
happens before any user input is read (the input loop is only reached on a
successful collection).  Collection completes normally only when the first
non-`?` position is inside the script and holds a non-empty line. -/
theorem c10_menu_boundary :
    (∀ (rem : List String) (q : Nat), (∀ l ∈ rem, strTake l 1 = "?") →
      ∃ msg, collectMenuAux q rem = .error msg) ∧
    (∀ (pre post : List String) (q : Nat), (∀ l ∈ pre, strTake l 1 = "?") →
      ∃ msg, collectMenuAux q (pre ++ "" :: post) = .error msg) ∧
    (∀ (rem : List String) (q : Nat) (g o : List String) (c : Nat),
      collectMenuAux q rem = .ok (g, o, c) →
      c < rem.length ∧ rem.getD c "" ≠ "" ∧ strTake (rem.getD c "") 1 ≠ "?") ∧
    (∀ (interp : String → Option Rat) (s : EngineState) (msg : String),
      strTake (s.lines.getD s.index "") 1 = "?" →
      collectMenuAux 0 (s.lines.drop s.index) = .error msg →
      step interp s = .fatal msg) := by
  refine ⟨collectMenuAux_error_of_all_q, collectMenuAux_error_of_empty_after,
    collectMenuAux_ok_bounds, ?_⟩
  intro interp s msg hline hcol
  rw [step_menu_eq interp s hline]
  simp [handleMenu, hcol]

theorem c10_menu_boundary_witness :
    (∀ l ∈ (["?A:#left"] : List String), strTake l 1 = "?") ∧
      (∃ msg, collectMenuAux 0 ["?A:#left"] = .error msg) ∧
      (∃ msg, collectMenuAux 0 ["?A:#left", "", "x"] = .error msg) := by
  refine ⟨by decide, c10_menu_boundary.1 ["?A:#left"] 0 (by decide), ?_⟩
  have h := c10_menu_boundary.2.1 ["?A:#left"] ["x"] 0 (by decide)
  simpa using h

/-! ### Claim C8: the program counter invariant -/

theorem execBranch_cont_bounds (interp : String → Option Rat) (s : EngineState) (exp : String)
    (s2 : EngineState) (out : List String)
    (hL : labelsBounded s) (hidx : s.index < s.lines.length)
    (h : execBranch interp s exp = .cont s2 out) :
    s2.index ≤ s.lines.length ∧ s2.lines = s.lines ∧ s2.labels = s.labels := by
  unfold execBranch at h
  split at h
  · cases h
  · split at h
    · split at h
      · rename_i v hv
        simp only [StepRes.cont.injEq] at h
        obtain ⟨rfl, rfl⟩ := h
        exact ⟨Nat.le_of_lt (hL _ v hv), rfl, rfl⟩
      · cases h
    · split at h
      · split at h
        · cases h
        · split at h
          · cases h
          · split at h
            · cases h
            · split at h
              · simp only [StepRes.cont.injEq] at h
                obtain ⟨rfl, rfl⟩ := h
                exact ⟨Nat.succ_le_of_lt hidx, rfl, rfl⟩
              · simp only [StepRes.cont.injEq] at h
                obtain ⟨rfl, rfl⟩ := h
                exact ⟨Nat.succ_le_of_lt hidx, rfl, rfl⟩
      · simp only [StepRes.cont.injEq] at h
        obtain ⟨rfl, rfl⟩ := h
        exact ⟨Nat.le_of_lt hidx, rfl, rfl⟩

theorem handleIf_cont_bounds (interp : String → Option Rat) (s : EngineState) (text : String)
    (s2 : EngineState) (out : List String)
    (hL : labelsBounded s) (hidx : s.index < s.lines.length)
    (h : handleIf interp s text = .cont s2 out) :
    s2.index ≤ s.lines.length ∧ s2.lines = s.lines ∧ s2.labels = s.labels := by
  unfold handleIf at h
  split at h
  · cases h
  · split at h
    · cases h
    · split at h
      · cases h
      · split at h
        · exact execBranch_cont_bounds interp s _ s2 out hL hidx h
        · split at h
          · exact execBranch_cont_bounds interp s _ s2 out hL hidx h
          · simp only [StepRes.cont.injEq] at h
            obtain ⟨rfl, rfl⟩ := h
            exact ⟨Nat.succ_le_of_lt hidx, rfl, rfl⟩

theorem handleAssign_cont_bounds (interp : String → Option Rat) (s : EngineState) (text : String)
    (s2 : EngineState) (out : List String)
    (hidx : s.index < s.lines.length)
    (h : handleAssign interp s text = .cont s2 out) :
    s2.index ≤ s.lines.length ∧ s2.lines = s.lines ∧ s2.labels = s.labels := by
  unfold handleAssign at h
  split at h
  · split at h
    · cases h
    · split at h
      · cases h
      · split at h
        · simp only [StepRes.cont.injEq] at h
          obtain ⟨rfl, rfl⟩ := h
          exact ⟨Nat.succ_le_of_lt hidx, rfl, rfl⟩
        · simp only [StepRes.cont.injEq] at h
          obtain ⟨rfl, rfl⟩ := h
          exact ⟨Nat.succ_le_of_lt hidx, rfl, rfl⟩
  · split at h
    · cases h
    · simp only [StepRes.cont.injEq] at h
      obtain ⟨rfl, rfl⟩ := h
      exact ⟨Nat.succ_le_of_lt hidx, rfl, rfl⟩

theorem handleMenu_cont_bounds (s : EngineState) (s2 : EngineState) (out : List String)
    (hL : labelsBounded s)
    (h : handleMenu s = .cont s2 out) :
    s2.index ≤ s.lines.length ∧ s2.lines = s.lines ∧ s2.labels = s.labels := by
  unfold handleMenu at h
  split at h
  · cases h
  · split at h
    · cases h
    · split at h
      · rename_i v hv
        simp only [StepRes.cont.injEq] at h
        obtain ⟨rfl, rfl⟩ := h
        exact ⟨Nat.le_of_lt (hL _ v hv), rfl, rfl⟩
      · cases h

theorem handleInput_cont_bounds (s : EngineState) (text : String)
    (s2 : EngineState) (out : List String)
    (hidx : s.index < s.lines.length)
    (h : handleInput s text = .cont s2 out) :
    s2.index ≤ s.lines.length ∧ s2.lines = s.lines ∧ s2.labels = s.labels := by
  unfold handleInput at h
  split at h
  · cases h
  · split at h
    · cases h
    · split at h
      · cases h
      · split at h
        · cases h
        · split at h
          · simp only [StepRes.cont.injEq] at h
            obtain ⟨rfl, rfl⟩ := h
            exact ⟨Nat.succ_le_of_lt hidx, rfl, rfl⟩
          · split at h
            · simp only [StepRes.cont.injEq] at h
              obtain ⟨rfl, rfl⟩ := h
              exact ⟨Nat.succ_le_of_lt hidx, rfl, rfl⟩
            · cases h

theorem step_cont_bounds (interp : String → Option Rat) (s : EngineState)
    (s2 : EngineState) (out : List String)
    (hL : labelsBounded s) (hidx : s.index < s.lines.length)
    (h : step interp s = .cont s2 out) :
    s2.index ≤ s.lines.length ∧ s2.lines = s.lines ∧ s2.labels = s.labels := by
  simp only [step] at h
  split at h
  · simp only [StepRes.cont.injEq] at h
    obtain ⟨rfl, rfl⟩ := h
    exact ⟨Nat.succ_le_of_lt hidx, rfl, rfl⟩
  · split at h
    · simp only [StepRes.cont.injEq] at h
      obtain ⟨rfl, rfl⟩ := h
      exact ⟨Nat.succ_le_of_lt hidx, rfl, rfl⟩
    · split at h
      · simp only [StepRes.cont.injEq] at h
        obtain ⟨rfl, rfl⟩ := h
        exact ⟨Nat.succ_le_of_lt hidx, rfl, rfl⟩
      · split at h
        · split at h
          · rename_i v hv
            simp only [StepRes.cont.injEq] at h
            obtain ⟨rfl, rfl⟩ := h
            exact ⟨Nat.le_of_lt (hL _ v hv), rfl, rfl⟩
          · cases h
        · split at h
          · exact handleIf_cont_bounds interp s _ s2 out hL hidx h
          · split at h
            · exact handleAssign_cont_bounds interp s _ s2 out hidx h
            · split at h
              · exact handleMenu_cont_bounds s s2 out hL h
              · split at h
                · exact handleInput_cont_bounds s _ s2 out hidx h
                · split at h
                  · cases h
                  · simp only [StepRes.cont.injEq] at h
                    obtain ⟨rfl, rfl⟩ := h
                    exact ⟨Nat.succ_le_of_lt hidx, rfl, rfl⟩

theorem run_halted_eq (interp : String → Option Rat) :
    ∀ (fuel : Nat) (s : EngineState), labelsBounded s → s.index ≤ s.lines.length →
      ∀ sf, run interp fuel s = .halted sf → sf.index = sf.lines.length := by
  intro fuel
  induction fuel with
  | zero => intro s _ _ sf h; cases h
  | succ n ih =>
    intro s hL hle sf h
    rw [run] at h
    split at h
    · rename_i hlt
      split at h
      · rename_i s2 out hstep
        rcases step_cont_bounds interp s s2 out hL hlt hstep with ⟨h1, h2, h3⟩
        have hL2 : labelsBounded s2 := by
          intro k v hv
          rw [h3] at hv
          rw [h2]
          exact hL k v hv
        exact ih s2 hL2 (by rw [h2]; exact h1) sf h
      · cases h
      · cases h
    · rename_i hge
      simp only [RunRes.halted.injEq] at h
      subst h
      omega

/-- Claim C8: on every state whose labels all point into the script (an
invariant the pre-scan establishes and execution preserves), one engine step
keeps the program counter within `[0, length]`, and a run that terminates
without aborting halts exactly when the program counter equals the script
length. -/
theorem c8_pc_invariant (interp : String → Option Rat) (s : EngineState)
    (hL : labelsBounded s) (hI : s.index ≤ s.lines.length) :
    (∀ s2 out, s.index < s.lines.length → step interp s = .cont s2 out →
      s2.index ≤ s2.lines.length ∧ labelsBounded s2) ∧
    (∀ fuel sf, run interp fuel s = .halted sf → sf.index = sf.lines.length) := by
  constructor
  · intro s2 out hlt hstep
    rcases step_cont_bounds interp s s2 out hL hlt hstep with ⟨h1, h2, h3⟩
    refine ⟨by rw [h2]; exact h1, ?_⟩
    intro k v hv
    rw [h3] at hv
    rw [h2]
    exact hL k v hv
  · intro fuel sf h
    exact run_halted_eq interp fuel s hL hI sf h

theorem c8_pc_invariant_witness :
    labelsBounded (processfile ["hi"] []) ∧ (processfile ["hi"] []).index = 0 ∧
      ({ lines := ["hi"], vars := [], labels := [], index := 1, stdin := [] } : EngineState).index =
        ({ lines := ["hi"], vars := [], labels := [], index := 1,
           stdin := [] } : EngineState).lines.length := by
  have hlab : (processfile ["hi"] []).labels = [] := by decide
  have hL : labelsBounded (processfile ["hi"] []) := by
    intro k v hv
    rw [hlab] at hv
    simp [alookup] at hv
  refine ⟨hL, by decide, ?_⟩
  exact (c8_pc_invariant (fun _ => none) (processfile ["hi"] []) hL (by decide)).2 2
    { lines := ["hi"], vars := [], labels := [], index := 1, stdin := [] } (by decide)

end StoryReader
